import Mathlib

/-!
# BiDirectionalMailbox (TI-RTOS client/server mailbox)

A shallow embedding of `BiDirectionalMailbox.cpp` / `BiDirectionalMailbox.h`.

* A `MailboxMsg*` is modelled by its address (`MsgPtr`); the class never looks
  inside a message, it only moves the pointer through an `Envelope`.
* The TI-RTOS mailbox primitive (`Mailbox_create`, `Mailbox_post`,
  `Mailbox_pend`) is not part of the repository; it is modelled from the
  description of the blocking queue in the specification (section 6).
* The embedding is sequential: while one call runs no other task acts.  A call
  that waits with a finite timeout therefore times out, and a call that waits
  with `BIOS_WAIT_FOREVER` on a queue that cannot serve it does not return
  (`blocked`).
* Machine integers are 32 bits wide (`unsigned int`, `int`, `UInt`).
-/

namespace Mbx

/-- A `MailboxMsg*`: the address of a message object. -/
abbrev MsgPtr := Nat

/-- The `Envelope` structure: a pointer to the message data. -/
structure Envelope where
  msg : MsgPtr
deriving DecidableEq, Repr

/-- The timeout argument of the mailbox primitive: a number of ticks, or
`BIOS_WAIT_FOREVER`. -/
inductive Timeout where
  | ticks (n : Nat)
  | BIOS_WAIT_FOREVER
deriving DecidableEq, Repr

/-- The constant `const int TIMEOUT = 1000;` of the header. -/
def TIMEOUT : Timeout := Timeout.ticks 1000

/-- Modelled from the spec: the TI-RTOS mailbox object behind a
`Mailbox_Handle` (the `BlockingQueue` of section 6, whose implementation is
not in the repository): a FIFO of envelopes with a fixed number of slots. -/
structure Mailbox where
  numMsgs : Nat
  msgs : List Envelope
deriving DecidableEq, Repr

/-- A `Mailbox_Handle`: `none` is the null handle, `some i` points to the
`i`-th mailbox object that was created. -/
abbrev Mailbox_Handle := Option Nat

/-- The mailbox objects created so far, in creation order. -/
abbrev Heap := List Mailbox

/-- The object a handle points to, if any. -/
def deref (heap : Heap) (h : Mailbox_Handle) : Option Mailbox :=
  match h with
  | none => none
  | some i => heap[i]?

/-- How a call of the mailbox primitive ends: it returns (`done`), it waits
forever (`blocked`), or it was handed a handle that points to no mailbox
(`fault`, undefined behaviour in C). -/
inductive Outcome (α : Type) where
  | done (heap : Heap) (a : α)
  | blocked
  | fault
deriving DecidableEq, Repr

/-- Modelled from the spec: `Mailbox_create(msgSize, numMsgs, params, eb)`,
the `Create(capacity) -> Handle` of section 6: a new empty mailbox with
`numMsgs` slots and a fresh handle to it. -/
def Mailbox_create (heap : Heap) (numMsgs : Nat) : Heap × Mailbox_Handle :=
  (heap ++ [{ numMsgs := numMsgs, msgs := [] }], some heap.length)

/-- Modelled from the spec: `Mailbox_post(handle, &e, timeout)`, the
`Post(handle, item, timeout) -> bool` of section 6.  With a free slot the
envelope is appended and the call returns `TRUE`; on a full mailbox a finite
timeout expires (`FALSE`) and `BIOS_WAIT_FOREVER` does not return. -/
def Mailbox_post (heap : Heap) (h : Mailbox_Handle) (e : Envelope) (t : Timeout) :
    Outcome Bool :=
  match h with
  | none => Outcome.fault
  | some i =>
    match heap[i]? with
    | none => Outcome.fault
    | some q =>
      if q.msgs.length < q.numMsgs then
        Outcome.done (heap.set i { q with msgs := q.msgs ++ [e] }) true
      else
        match t with
        | Timeout.ticks _ => Outcome.done heap false
        | Timeout.BIOS_WAIT_FOREVER => Outcome.blocked

/-- Modelled from the spec: `Mailbox_pend(handle, &e, timeout)`, the
`Pend(handle, timeout) -> (bool, item?)` of section 6.  `some e` stands for
`TRUE` with the oldest envelope copied to the buffer, `none` for `FALSE` with
the buffer untouched; on an empty mailbox a finite timeout expires and
`BIOS_WAIT_FOREVER` does not return. -/
def Mailbox_pend (heap : Heap) (h : Mailbox_Handle) (t : Timeout) :
    Outcome (Option Envelope) :=
  match h with
  | none => Outcome.fault
  | some i =>
    match heap[i]? with
    | none => Outcome.fault
    | some q =>
      match q.msgs with
      | e :: rest => Outcome.done (heap.set i { q with msgs := rest }) (some e)
      | [] =>
        match t with
        | Timeout.ticks _ => Outcome.done heap none
        | Timeout.BIOS_WAIT_FOREVER => Outcome.blocked

/-- Conversion `unsigned int -> int` (32 bits, wrapping). -/
def toInt32 (n : Nat) : Int :=
  if n % 2 ^ 32 < 2 ^ 31 then ((n % 2 ^ 32 : Nat) : Int)
  else ((n % 2 ^ 32 : Nat) : Int) - 2 ^ 32

/-- Conversion `int -> UInt` (32 bits). -/
def toUInt32 (i : Int) : Nat := (i % 2 ^ 32).toNat

/-- The registry type `map<int,Mailbox_Handle>`, as the list of its entries. -/
abbrev ClientMap := List (Int × Mailbox_Handle)

/-- Lookup without insertion (`std::map::find`); used to observe the map. -/
def mapFind : ClientMap → Int → Option Mailbox_Handle
  | [], _ => none
  | (k, v) :: rest, id => if k = id then some v else mapFind rest id

/-- The expression `m[id]` of `std::map` read as an rvalue: the value bound to
`id`; when `id` has no entry, one is inserted with the value-initialised
(null) handle. -/
def mapIndex (m : ClientMap) (id : Int) : ClientMap × Mailbox_Handle :=
  match mapFind m id with
  | some h => (m, h)
  | none => (m ++ [(id, none)], none)

/-- The statement `m[id] = h` of `std::map`: rebinds `id` when it has an
entry, inserts the entry otherwise. -/
def mapAssign : ClientMap → Int → Mailbox_Handle → ClientMap
  | [], id, h => [(id, h)]
  | (k, v) :: rest, id, h =>
    if k = id then (k, h) :: rest else (k, v) :: mapAssign rest id h

/-- The data members of `class BiDirectionalMailbox`, together with the
mailbox objects its handles point to (`mbxParams` keeps its default value
throughout and is left out). -/
structure BiDirectionalMailbox where
  heap : Heap
  Mbx_Server : Mailbox_Handle
  Mbx_client : ClientMap
  size : Int
deriving DecidableEq, Repr

/-- How a member function ends: it returns a value in a new state, it never
returns because the primitive waits forever, or it reaches undefined
behaviour; the state is the one at that point. -/
inductive Res (α : Type) where
  | ret (s : BiDirectionalMailbox) (a : α)
  | blocked (s : BiDirectionalMailbox)
  | fault (s : BiDirectionalMailbox)
deriving DecidableEq, Repr

/-- The state in which a call ended. -/
def Res.state {α : Type} : Res α → BiDirectionalMailbox
  | Res.ret s _ => s
  | Res.blocked s => s
  | Res.fault s => s

/-- The value a call returned, if it returned. -/
def Res.value {α : Type} : Res α → Option α
  | Res.ret _ a => some a
  | Res.blocked _ => none
  | Res.fault _ => none

/-- Whether the call returned. -/
def Res.returned {α : Type} (r : Res α) : Bool := r.value.isSome

namespace BiDirectionalMailbox

/-- The constructor `BiDirectionalMailbox::BiDirectionalMailbox(unsigned int size_in)`:
`size = size_in; Mbx_Server = Mailbox_create(sizeof(Envelope), size, ...)`. -/
def construct (size_in : Nat) : BiDirectionalMailbox :=
  let size := toInt32 size_in
  let c := Mailbox_create [] (toUInt32 size)
  { heap := c.1, Mbx_Server := c.2, Mbx_client := [], size := size }

/-- The member `InitClient(int id)`:
`Mbx_client[id] = Mailbox_create(sizeof(Envelope), size, &mbxParams, NULL);` -/
def InitClient (s : BiDirectionalMailbox) (id : Int) : BiDirectionalMailbox :=
  let c := Mailbox_create s.heap (toUInt32 s.size)
  { s with heap := c.1, Mbx_client := mapAssign s.Mbx_client id c.2 }

/-- The member `ServerPend(MailboxMsg** msg)`.  The second component of the
result is the content of `*msg` after the call.  The return value of
`Mailbox_pend` is ignored by the source; were it `FALSE`, the uninitialised
local envelope would be read. -/
def ServerPend (s : BiDirectionalMailbox) (_msg : MsgPtr) : Res (Bool × MsgPtr) :=
  match Mailbox_pend s.heap s.Mbx_Server Timeout.BIOS_WAIT_FOREVER with
  | Outcome.done heap (some e) => Res.ret { s with heap := heap } (true, e.msg)
  | Outcome.done heap none => Res.fault { s with heap := heap }
  | Outcome.blocked => Res.blocked s
  | Outcome.fault => Res.fault s

/-- The member `ClientPend(int id_to_pend, MailboxMsg** msg)`:
`if(Mailbox_pend(Mbx_client[id_to_pend], &e, 1000)) { *msg = e.msg; return true; }
else return false;`.  The second component of the result is the content of
`*msg` after the call. -/
def ClientPend (s : BiDirectionalMailbox) (id_to_pend : Int) (msg : MsgPtr) :
    Res (Bool × MsgPtr) :=
  let ix := mapIndex s.Mbx_client id_to_pend
  let s1 := { s with Mbx_client := ix.1 }
  match Mailbox_pend s1.heap ix.2 (Timeout.ticks 1000) with
  | Outcome.done heap (some e) => Res.ret { s1 with heap := heap } (true, e.msg)
  | Outcome.done heap none => Res.ret { s1 with heap := heap } (false, msg)
  | Outcome.blocked => Res.blocked s1
  | Outcome.fault => Res.fault s1

/-- The send step of `ClientRequestAndWaitForResponse` (its first three
statements): `e.msg = msg_to_send; Mailbox_post(Mbx_Server, &e, TIMEOUT)`. -/
def sendStep (s : BiDirectionalMailbox) (msg_to_send : MsgPtr) : Res Bool :=
  match Mailbox_post s.heap s.Mbx_Server { msg := msg_to_send } TIMEOUT with
  | Outcome.done heap b => Res.ret { s with heap := heap } b
  | Outcome.blocked => Res.blocked s
  | Outcome.fault => Res.fault s

/-- The member `ClientRequestAndWaitForResponse(int id_to_pend,
MailboxMsg* msg_to_send, MailboxMsg** msg_response)`: when the post fails
return false, otherwise return what `ClientPend` returns. -/
def ClientRequestAndWaitForResponse (s : BiDirectionalMailbox) (id_to_pend : Int)
    (msg_to_send : MsgPtr) (msg_response : MsgPtr) : Res (Bool × MsgPtr) :=
  match sendStep s msg_to_send with
  | Res.ret s1 false => Res.ret s1 (false, msg_response)
  | Res.ret s1 true =>
    match ClientPend s1 id_to_pend msg_response with
    | Res.ret s2 (b, m) => Res.ret s2 (if b then true else false, m)
    | Res.blocked s2 => Res.blocked s2
    | Res.fault s2 => Res.fault s2
  | Res.blocked s1 => Res.blocked s1
  | Res.fault s1 => Res.fault s1

/-- The member `ClientRequestNoWait(int id_to_pend, MailboxMsg* msg_to_send)`:
`Mailbox_post(Mbx_Server, &e, BIOS_WAIT_FOREVER); return true;` -/
def ClientRequestNoWait (s : BiDirectionalMailbox) (_id_to_pend : Int)
    (msg_to_send : MsgPtr) : Res Bool :=
  match Mailbox_post s.heap s.Mbx_Server { msg := msg_to_send }
      Timeout.BIOS_WAIT_FOREVER with
  | Outcome.done heap _ => Res.ret { s with heap := heap } true
  | Outcome.blocked => Res.blocked s
  | Outcome.fault => Res.fault s

/-- The member `ServerRespondToClient(int id, MailboxMsg* msg_to_send)`:
`Mailbox_post(Mbx_client[id], &e, BIOS_WAIT_FOREVER); return true;` -/
def ServerRespondToClient (s : BiDirectionalMailbox) (id : Int)
    (msg_to_send : MsgPtr) : Res Bool :=
  let ix := mapIndex s.Mbx_client id
  let s1 := { s with Mbx_client := ix.1 }
  match Mailbox_post s1.heap ix.2 { msg := msg_to_send }
      Timeout.BIOS_WAIT_FOREVER with
  | Outcome.done heap _ => Res.ret { s1 with heap := heap } true
  | Outcome.blocked => Res.blocked s1
  | Outcome.fault => Res.fault s1

/-- The mailbox object behind `Mbx_Server`. -/
def serverQueue (s : BiDirectionalMailbox) : Option Mailbox :=
  deref s.heap s.Mbx_Server

/-- The handle the registry binds to `id`, if `id` has an entry. -/
def clientHandle (s : BiDirectionalMailbox) (id : Int) : Option Mailbox_Handle :=
  mapFind s.Mbx_client id

/-- The mailbox object the registry binds to `id`. -/
def clientQueue (s : BiDirectionalMailbox) (id : Int) : Option Mailbox :=
  match mapFind s.Mbx_client id with
  | none => none
  | some h => deref s.heap h

/-- The ids that have an entry in the registry. -/
def registeredIds (s : BiDirectionalMailbox) : List Int :=
  s.Mbx_client.map Prod.fst

/-- One call of a member function, with its arguments (for an out-parameter:
the content of the pointed-to variable before the call). -/
inductive Op where
  | InitClient (id : Int)
  | ServerPend (msg : MsgPtr)
  | ServerRespondToClient (id : Int) (msg_to_send : MsgPtr)
  | ClientPend (id_to_pend : Int) (msg : MsgPtr)
  | ClientRequestAndWaitForResponse (id_to_pend : Int) (msg_to_send : MsgPtr)
      (msg_response : MsgPtr)
  | ClientRequestNoWait (id_to_pend : Int) (msg_to_send : MsgPtr)
deriving DecidableEq, Repr

/-- Forget the returned value of a call. -/
def ignoreValue {α : Type} : Res α → Res Unit
  | Res.ret s _ => Res.ret s ()
  | Res.blocked s => Res.blocked s
  | Res.fault s => Res.fault s

/-- Perform one call on state `s`. -/
def Op.run (s : BiDirectionalMailbox) : Op → Res Unit
  | Op.InitClient id => Res.ret (s.InitClient id) ()
  | Op.ServerPend msg => ignoreValue (s.ServerPend msg)
  | Op.ServerRespondToClient id m => ignoreValue (s.ServerRespondToClient id m)
  | Op.ClientPend id msg => ignoreValue (s.ClientPend id msg)
  | Op.ClientRequestAndWaitForResponse id m r =>
    ignoreValue (s.ClientRequestAndWaitForResponse id m r)
  | Op.ClientRequestNoWait id m => ignoreValue (s.ClientRequestNoWait id m)

/-- The states the program can be in: the state after the constructor, and
every state in which a call made in such a state returns. -/
inductive Reachable : BiDirectionalMailbox → Prop where
  | construct (size_in : Nat) (h : size_in < 2 ^ 32) : Reachable (construct size_in)
  | step (s s1 : BiDirectionalMailbox) (op : Op) (hs : Reachable s)
      (hop : op.run s = Res.ret s1 ()) : Reachable s1

/-- The shape of the reachable states: the server handle points to a mailbox,
every registered id is bound to a mailbox of its own, different from the
server mailbox, and every mailbox has `size` slots and holds at most that many
envelopes. -/
structure WF (s : BiDirectionalMailbox) : Prop where
  server : ∃ i, s.Mbx_Server = some i ∧ i < s.heap.length
  client : ∀ id h, mapFind s.Mbx_client id = some h →
    ∃ j, h = some j ∧ j < s.heap.length ∧ s.Mbx_Server ≠ some j
  inj : ∀ id id1 h, mapFind s.Mbx_client id = some h →
    mapFind s.Mbx_client id1 = some h → id = id1
  cap : ∀ q, q ∈ s.heap → q.numMsgs = toUInt32 s.size ∧ q.msgs.length ≤ q.numMsgs

/-- A client request as it reaches the server queue: a call of
`ClientRequestNoWait`, or the send step of `ClientRequestAndWaitForResponse`. -/
inductive Request where
  | noWait (id_to_pend : Int) (msg_to_send : MsgPtr)
  | sendAndWait (id_to_pend : Int) (msg_to_send : MsgPtr)
deriving DecidableEq, Repr

/-- The message a request carries. -/
def Request.msg : Request → MsgPtr
  | Request.noWait _ m => m
  | Request.sendAndWait _ m => m

/-- Perform the enqueue of one request. -/
def Request.post (s : BiDirectionalMailbox) : Request → Res Bool
  | Request.noWait id m => s.ClientRequestNoWait id m
  | Request.sendAndWait _ m => s.sendStep m

/-- Perform the enqueues of a sequence of requests one after the other; `none`
as soon as one of them does not return true. -/
def postAll (s : BiDirectionalMailbox) : List Request → Option BiDirectionalMailbox
  | [] => some s
  | r :: rs =>
    match r.post s with
    | Res.ret s1 true => postAll s1 rs
    | _ => none

/-- Perform `k` successive calls of `ServerPend` on the same out-parameter and
collect the messages they hand back; `none` as soon as one of them does not
return true. -/
def serverPendN (s : BiDirectionalMailbox) (msg : MsgPtr) :
    Nat → Option (List MsgPtr × BiDirectionalMailbox)
  | 0 => some ([], s)
  | k + 1 =>
    match s.ServerPend msg with
    | Res.ret s1 (true, m) =>
      match serverPendN s1 m k with
      | some (ms, s2) => some (m :: ms, s2)
      | none => none
    | _ => none

/-- Perform a sequence of calls one after the other; `none` as soon as one of
them does not return. -/
def runOps (s : BiDirectionalMailbox) : List Op → Option BiDirectionalMailbox
  | [] => some s
  | op :: ops =>
    match op.run s with
    | Res.ret s1 _ => runOps s1 ops
    | _ => none

end BiDirectionalMailbox

/-! ## The registry -/

theorem mapFind_mapAssign (m : ClientMap) (id id1 : Int) (h : Mailbox_Handle) :
    mapFind (mapAssign m id h) id1 = if id = id1 then some h else mapFind m id1 := by
  induction m with
  | nil => simp [mapAssign, mapFind]
  | cons kv rest ih =>
    obtain ⟨k, v⟩ := kv
    by_cases hk : k = id
    · subst hk
      by_cases h1 : k = id1 <;> simp [mapAssign, mapFind, h1]
    · by_cases h1 : k = id1
      · subst h1
        have : ¬ id = k := fun e => hk e.symm
        simp [mapAssign, mapFind, hk, this]
      · simp [mapAssign, mapFind, hk, h1, ih]

theorem mapFind_append_none (m : ClientMap) (id id1 : Int) (h : Mailbox_Handle)
    (hn : mapFind m id = none) :
    mapFind (m ++ [(id, h)]) id1 = if id = id1 then some h else mapFind m id1 := by
  induction m with
  | nil => simp [mapFind]
  | cons kv rest ih =>
    obtain ⟨k, v⟩ := kv
    by_cases hk : k = id
    · simp [mapFind, hk] at hn
    · simp only [mapFind, hk, if_false] at hn
      by_cases h1 : k = id1
      · subst h1
        have : ¬ id = k := fun e => hk e.symm
        simp [mapFind, this]
      · simp [mapFind, h1, ih hn]

theorem mapIndex_of_some (m : ClientMap) (id : Int) (h : Mailbox_Handle)
    (hf : mapFind m id = some h) : mapIndex m id = (m, h) := by
  simp [mapIndex, hf]

theorem mapIndex_of_none (m : ClientMap) (id : Int)
    (hf : mapFind m id = none) : mapIndex m id = (m ++ [(id, none)], none) := by
  simp [mapIndex, hf]

theorem mapFind_isSome_iff (m : ClientMap) (id : Int) :
    (mapFind m id).isSome = true ↔ id ∈ m.map Prod.fst := by
  induction m with
  | nil => simp [mapFind]
  | cons kv rest ih =>
    obtain ⟨k, v⟩ := kv
    by_cases hk : k = id
    · simp [mapFind, hk]
    · have : ¬ id = k := fun e => hk e.symm
      simp [mapFind, hk, this, ih]

/-! ## The mailbox primitive -/

theorem set_of_getElem? (heap : Heap) (i : Nat) (q : Mailbox)
    (hq : heap[i]? = some q) : heap.set i q = heap := by
  apply List.ext_getElem?
  intro j
  by_cases hj : i = j
  · subst hj
    have hlt : i < heap.length := (List.getElem?_eq_some.mp hq).1
    rw [List.getElem?_set_self hlt, hq]
  · rw [List.getElem?_set_ne hj]

theorem Mailbox_post_free (heap : Heap) (i : Nat) (q : Mailbox) (e : Envelope)
    (t : Timeout) (hq : heap[i]? = some q) (hfree : q.msgs.length < q.numMsgs) :
    Mailbox_post heap (some i) e t =
      Outcome.done (heap.set i { q with msgs := q.msgs ++ [e] }) true := by
  simp [Mailbox_post, hq, hfree]

theorem Mailbox_post_full_ticks (heap : Heap) (i : Nat) (q : Mailbox) (e : Envelope)
    (n : Nat) (hq : heap[i]? = some q) (hfull : q.numMsgs ≤ q.msgs.length) :
    Mailbox_post heap (some i) e (Timeout.ticks n) = Outcome.done heap false := by
  simp [Mailbox_post, hq, Nat.not_lt.mpr hfull]

theorem Mailbox_post_full_forever (heap : Heap) (i : Nat) (q : Mailbox) (e : Envelope)
    (hq : heap[i]? = some q) (hfull : q.numMsgs ≤ q.msgs.length) :
    Mailbox_post heap (some i) e Timeout.BIOS_WAIT_FOREVER = Outcome.blocked := by
  simp [Mailbox_post, hq, Nat.not_lt.mpr hfull]

theorem Mailbox_pend_cons (heap : Heap) (i : Nat) (q : Mailbox) (e : Envelope)
    (rest : List Envelope) (t : Timeout) (hq : heap[i]? = some q)
    (hm : q.msgs = e :: rest) :
    Mailbox_pend heap (some i) t =
      Outcome.done (heap.set i { q with msgs := rest }) (some e) := by
  simp [Mailbox_pend, hq, hm]

theorem Mailbox_pend_nil_ticks (heap : Heap) (i : Nat) (q : Mailbox) (n : Nat)
    (hq : heap[i]? = some q) (hm : q.msgs = []) :
    Mailbox_pend heap (some i) (Timeout.ticks n) = Outcome.done heap none := by
  simp [Mailbox_pend, hq, hm]

theorem Mailbox_pend_nil_forever (heap : Heap) (i : Nat) (q : Mailbox)
    (hq : heap[i]? = some q) (hm : q.msgs = []) :
    Mailbox_pend heap (some i) Timeout.BIOS_WAIT_FOREVER = Outcome.blocked := by
  simp [Mailbox_pend, hq, hm]

/-- A handle that points to a mailbox is not null. -/
theorem deref_eq_some (heap : Heap) (h : Mailbox_Handle) (q : Mailbox)
    (hd : deref heap h = some q) : ∃ i, h = some i ∧ heap[i]? = some q := by
  cases h with
  | none => simp [deref] at hd
  | some i => exact ⟨i, rfl, by simpa [deref] using hd⟩

namespace BiDirectionalMailbox

theorem serverQueue_eq_some (s : BiDirectionalMailbox) (q : Mailbox)
    (hq : s.serverQueue = some q) :
    ∃ i, s.Mbx_Server = some i ∧ s.heap[i]? = some q :=
  deref_eq_some s.heap s.Mbx_Server q hq

theorem clientQueue_eq_some (s : BiDirectionalMailbox) (id : Int) (q : Mailbox)
    (hq : s.clientQueue id = some q) :
    ∃ i, mapFind s.Mbx_client id = some (some i) ∧ s.heap[i]? = some q := by
  unfold clientQueue at hq
  cases hf : mapFind s.Mbx_client id with
  | none => simp [hf] at hq
  | some h =>
    rw [hf] at hq
    obtain ⟨i, hi, hqi⟩ := deref_eq_some s.heap h q hq
    exact ⟨i, by rw [hi], hqi⟩

/-! ## The send step and the failed send -/

theorem sendStep_full (s : BiDirectionalMailbox) (q : Mailbox) (m : MsgPtr)
    (hq : s.serverQueue = some q) (hfull : q.numMsgs ≤ q.msgs.length) :
    s.sendStep m = Res.ret s false := by
  obtain ⟨i, hi, hqi⟩ := serverQueue_eq_some s q hq
  obtain ⟨heap, srv, cl, sz⟩ := s
  simp only at hi hqi
  subst hi
  simp [sendStep, TIMEOUT, Mailbox_post_full_ticks heap i q _ 1000 hqi hfull]

theorem sendStep_free (s : BiDirectionalMailbox) (i : Nat) (q : Mailbox) (m : MsgPtr)
    (hi : s.Mbx_Server = some i) (hqi : s.heap[i]? = some q)
    (hfree : q.msgs.length < q.numMsgs) :
    s.sendStep m =
      Res.ret { s with heap := s.heap.set i { q with msgs := q.msgs ++ [{ msg := m }] } }
        true := by
  obtain ⟨heap, srv, cl, sz⟩ := s
  simp only at hi hqi
  subst hi
  simp [sendStep, TIMEOUT, Mailbox_post_free heap i q _ _ hqi hfree]

/-- C3. Failed send is atomic: when the server queue is full (and, no other
task acting, stays full for the send timeout), for every id, registered or
not, every message and every content of the response out-parameter,
`ClientRequestAndWaitForResponse` returns false, the out-parameter keeps its
content and the whole state (server queue, every client queue, the registry)
is the state before the call: the message was put in no queue and the client
queue was not waited on. -/
theorem failed_send_atomic (s : BiDirectionalMailbox) (q : Mailbox) (id : Int)
    (m out : MsgPtr) (hq : s.serverQueue = some q)
    (hfull : q.numMsgs ≤ q.msgs.length) :
    s.ClientRequestAndWaitForResponse id m out = Res.ret s (false, out) := by
  simp [ClientRequestAndWaitForResponse, sendStep_full s q m hq hfull]

/-- Witness of C3: a server queue of one slot that holds one request. -/
theorem failed_send_atomic_witness :
    ((construct 1).ClientRequestNoWait 7 42).state.ClientRequestAndWaitForResponse 7 43 0
      = Res.ret ((construct 1).ClientRequestNoWait 7 42).state (false, 0) :=
  failed_send_atomic ((construct 1).ClientRequestNoWait 7 42).state
    { numMsgs := 1, msgs := [{ msg := 42 }] } 7 43 0 (by decide) (by decide)

/-! ## What each member function does, case by case -/

theorem ClientPend_empty (s : BiDirectionalMailbox) (id : Int) (out : MsgPtr) (i : Nat)
    (q : Mailbox) (hf : mapFind s.Mbx_client id = some (some i))
    (hq : s.heap[i]? = some q) (hm : q.msgs = []) :
    s.ClientPend id out = Res.ret s (false, out) := by
  obtain ⟨heap, srv, cl, sz⟩ := s
  simp only at hf hq
  simp [ClientPend, mapIndex, hf, Mailbox_pend_nil_ticks heap i q 1000 hq hm]

theorem ClientPend_cons (s : BiDirectionalMailbox) (id : Int) (out : MsgPtr) (i : Nat)
    (q : Mailbox) (e : Envelope) (rest : List Envelope)
    (hf : mapFind s.Mbx_client id = some (some i))
    (hq : s.heap[i]? = some q) (hm : q.msgs = e :: rest) :
    s.ClientPend id out =
      Res.ret { s with heap := s.heap.set i { q with msgs := rest } } (true, e.msg) := by
  obtain ⟨heap, srv, cl, sz⟩ := s
  simp only at hf hq
  simp [ClientPend, mapIndex, hf, Mailbox_pend_cons heap i q e rest _ hq hm]

theorem ClientPend_unregistered (s : BiDirectionalMailbox) (id : Int) (out : MsgPtr)
    (hf : mapFind s.Mbx_client id = none) :
    s.ClientPend id out =
      Res.fault { s with Mbx_client := s.Mbx_client ++ [(id, none)] } := by
  simp [ClientPend, mapIndex, hf, Mailbox_pend]

theorem ClientPend_ret_inv (s s1 : BiDirectionalMailbox) (id : Int) (out : MsgPtr)
    (v : Bool × MsgPtr) (h : s.ClientPend id out = Res.ret s1 v) :
    ∃ i q, mapFind s.Mbx_client id = some (some i) ∧ s.heap[i]? = some q ∧
      ((q.msgs = [] ∧ s1 = s ∧ v = (false, out)) ∨
       ∃ e rest, q.msgs = e :: rest ∧
         s1 = { s with heap := s.heap.set i { q with msgs := rest } } ∧
         v = (true, e.msg)) := by
  cases hf : mapFind s.Mbx_client id with
  | none => rw [ClientPend_unregistered s id out hf] at h; cases h
  | some hd =>
    cases hd with
    | none => simp [ClientPend, mapIndex, hf, Mailbox_pend] at h
    | some i =>
      obtain ⟨_ | q, hq⟩ : ∃ x, s.heap[i]? = x := ⟨_, rfl⟩
      · simp [ClientPend, mapIndex, hf, Mailbox_pend, hq] at h
      · refine ⟨i, q, rfl, hq, ?_⟩
        obtain ⟨_ | ⟨e, rest⟩, hm⟩ : ∃ x, q.msgs = x := ⟨_, rfl⟩
        · rw [ClientPend_empty s id out i q hf hq hm] at h
          injection h with h1 h2
          exact Or.inl ⟨hm, h1.symm, h2.symm⟩
        · rw [ClientPend_cons s id out i q e rest hf hq hm] at h
          injection h with h1 h2
          exact Or.inr ⟨e, rest, hm, h1.symm, h2.symm⟩

theorem ServerRespondToClient_free (s : BiDirectionalMailbox) (id : Int) (m : MsgPtr)
    (i : Nat) (q : Mailbox) (hf : mapFind s.Mbx_client id = some (some i))
    (hq : s.heap[i]? = some q) (hfree : q.msgs.length < q.numMsgs) :
    s.ServerRespondToClient id m =
      Res.ret { s with heap := s.heap.set i { q with msgs := q.msgs ++ [{ msg := m }] } }
        true := by
  obtain ⟨heap, srv, cl, sz⟩ := s
  simp only at hf hq
  simp [ServerRespondToClient, mapIndex, hf, Mailbox_post_free heap i q _ _ hq hfree]

theorem ServerRespondToClient_full (s : BiDirectionalMailbox) (id : Int) (m : MsgPtr)
    (i : Nat) (q : Mailbox) (hf : mapFind s.Mbx_client id = some (some i))
    (hq : s.heap[i]? = some q) (hfull : q.numMsgs ≤ q.msgs.length) :
    s.ServerRespondToClient id m = Res.blocked s := by
  obtain ⟨heap, srv, cl, sz⟩ := s
  simp only at hf hq
  simp [ServerRespondToClient, mapIndex, hf, Mailbox_post_full_forever heap i q _ hq hfull]

theorem ServerRespondToClient_unregistered (s : BiDirectionalMailbox) (id : Int)
    (m : MsgPtr) (hf : mapFind s.Mbx_client id = none) :
    s.ServerRespondToClient id m =
      Res.fault { s with Mbx_client := s.Mbx_client ++ [(id, none)] } := by
  simp [ServerRespondToClient, mapIndex, hf, Mailbox_post]

theorem ServerRespondToClient_ret_inv (s s1 : BiDirectionalMailbox) (id : Int)
    (m : MsgPtr) (b : Bool) (h : s.ServerRespondToClient id m = Res.ret s1 b) :
    ∃ i q, mapFind s.Mbx_client id = some (some i) ∧ s.heap[i]? = some q ∧
      q.msgs.length < q.numMsgs ∧ b = true ∧
      s1 = { s with heap := s.heap.set i { q with msgs := q.msgs ++ [{ msg := m }] } } := by
  cases hf : mapFind s.Mbx_client id with
  | none => rw [ServerRespondToClient_unregistered s id m hf] at h; cases h
  | some hd =>
    cases hd with
    | none => simp [ServerRespondToClient, mapIndex, hf, Mailbox_post] at h
    | some i =>
      obtain ⟨_ | q, hq⟩ : ∃ x, s.heap[i]? = x := ⟨_, rfl⟩
      · simp [ServerRespondToClient, mapIndex, hf, Mailbox_post, hq] at h
      · by_cases hfree : q.msgs.length < q.numMsgs
        · rw [ServerRespondToClient_free s id m i q hf hq hfree] at h
          injection h with h1 h2
          exact ⟨i, q, rfl, hq, hfree, h2.symm, h1.symm⟩
        · rw [ServerRespondToClient_full s id m i q hf hq (Nat.le_of_not_lt hfree)] at h
          cases h

theorem ServerPend_cons (s : BiDirectionalMailbox) (out : MsgPtr) (i : Nat)
    (q : Mailbox) (e : Envelope) (rest : List Envelope)
    (hi : s.Mbx_Server = some i) (hq : s.heap[i]? = some q) (hm : q.msgs = e :: rest) :
    s.ServerPend out =
      Res.ret { s with heap := s.heap.set i { q with msgs := rest } } (true, e.msg) := by
  obtain ⟨heap, srv, cl, sz⟩ := s
  simp only at hi hq
  subst hi
  simp [ServerPend, Mailbox_pend_cons heap i q e rest _ hq hm]

theorem ServerPend_empty (s : BiDirectionalMailbox) (out : MsgPtr) (i : Nat)
    (q : Mailbox) (hi : s.Mbx_Server = some i) (hq : s.heap[i]? = some q)
    (hm : q.msgs = []) : s.ServerPend out = Res.blocked s := by
  obtain ⟨heap, srv, cl, sz⟩ := s
  simp only at hi hq
  subst hi
  simp [ServerPend, Mailbox_pend_nil_forever heap i q hq hm]

theorem ServerPend_ret_inv (s s1 : BiDirectionalMailbox) (out : MsgPtr)
    (v : Bool × MsgPtr) (h : s.ServerPend out = Res.ret s1 v) :
    ∃ i q e rest, s.Mbx_Server = some i ∧ s.heap[i]? = some q ∧ q.msgs = e :: rest ∧
      s1 = { s with heap := s.heap.set i { q with msgs := rest } } ∧
      v = (true, e.msg) := by
  obtain ⟨_ | i, hi⟩ : ∃ x, s.Mbx_Server = x := ⟨_, rfl⟩
  · simp [ServerPend, hi, Mailbox_pend] at h
  · obtain ⟨_ | q, hq⟩ : ∃ x, s.heap[i]? = x := ⟨_, rfl⟩
    · simp [ServerPend, hi, Mailbox_pend, hq] at h
    · obtain ⟨_ | ⟨e, rest⟩, hm⟩ : ∃ x, q.msgs = x := ⟨_, rfl⟩
      · rw [ServerPend_empty s out i q hi hq hm] at h; cases h
      · rw [ServerPend_cons s out i q e rest hi hq hm] at h
        injection h with h1 h2
        exact ⟨i, q, e, rest, hi, hq, hm, h1.symm, h2.symm⟩

theorem ClientRequestNoWait_free (s : BiDirectionalMailbox) (id : Int) (m : MsgPtr)
    (i : Nat) (q : Mailbox) (hi : s.Mbx_Server = some i) (hq : s.heap[i]? = some q)
    (hfree : q.msgs.length < q.numMsgs) :
    s.ClientRequestNoWait id m =
      Res.ret { s with heap := s.heap.set i { q with msgs := q.msgs ++ [{ msg := m }] } }
        true := by
  obtain ⟨heap, srv, cl, sz⟩ := s
  simp only at hi hq
  subst hi
  simp [ClientRequestNoWait, Mailbox_post_free heap i q _ _ hq hfree]

theorem ClientRequestNoWait_full (s : BiDirectionalMailbox) (id : Int) (m : MsgPtr)
    (i : Nat) (q : Mailbox) (hi : s.Mbx_Server = some i) (hq : s.heap[i]? = some q)
    (hfull : q.numMsgs ≤ q.msgs.length) :
    s.ClientRequestNoWait id m = Res.blocked s := by
  obtain ⟨heap, srv, cl, sz⟩ := s
  simp only at hi hq
  subst hi
  simp [ClientRequestNoWait, Mailbox_post_full_forever heap i q _ hq hfull]

theorem ClientRequestNoWait_ret_inv (s s1 : BiDirectionalMailbox) (id : Int)
    (m : MsgPtr) (b : Bool) (h : s.ClientRequestNoWait id m = Res.ret s1 b) :
    ∃ i q, s.Mbx_Server = some i ∧ s.heap[i]? = some q ∧
      q.msgs.length < q.numMsgs ∧ b = true ∧
      s1 = { s with heap := s.heap.set i { q with msgs := q.msgs ++ [{ msg := m }] } } := by
  obtain ⟨_ | i, hi⟩ : ∃ x, s.Mbx_Server = x := ⟨_, rfl⟩
  · simp [ClientRequestNoWait, hi, Mailbox_post] at h
  · obtain ⟨_ | q, hq⟩ : ∃ x, s.heap[i]? = x := ⟨_, rfl⟩
    · simp [ClientRequestNoWait, hi, Mailbox_post, hq] at h
    · by_cases hfree : q.msgs.length < q.numMsgs
      · rw [ClientRequestNoWait_free s id m i q hi hq hfree] at h
        injection h with h1 h2
        exact ⟨i, q, hi, hq, hfree, h2.symm, h1.symm⟩
      · rw [ClientRequestNoWait_full s id m i q hi hq (Nat.le_of_not_lt hfree)] at h
        cases h

theorem sendStep_ret_inv (s s1 : BiDirectionalMailbox) (m : MsgPtr) (b : Bool)
    (h : s.sendStep m = Res.ret s1 b) :
    ∃ i q, s.Mbx_Server = some i ∧ s.heap[i]? = some q ∧
      ((q.numMsgs ≤ q.msgs.length ∧ b = false ∧ s1 = s) ∨
       (q.msgs.length < q.numMsgs ∧ b = true ∧
        s1 = { s with heap := s.heap.set i { q with msgs := q.msgs ++ [{ msg := m }] } })) := by
  obtain ⟨_ | i, hi⟩ : ∃ x, s.Mbx_Server = x := ⟨_, rfl⟩
  · simp [sendStep, hi, Mailbox_post] at h
  · obtain ⟨_ | q, hq⟩ : ∃ x, s.heap[i]? = x := ⟨_, rfl⟩
    · simp [sendStep, hi, Mailbox_post, hq] at h
    · refine ⟨i, q, hi, hq, ?_⟩
      by_cases hfree : q.msgs.length < q.numMsgs
      · rw [sendStep_free s i q m hi hq hfree] at h
        injection h with h1 h2
        exact Or.inr ⟨hfree, h2.symm, h1.symm⟩
      · have hfull := Nat.le_of_not_lt hfree
        have hsq : s.serverQueue = some q := by simp [serverQueue, deref, hi, hq]
        rw [sendStep_full s q m hsq hfull] at h
        injection h with h1 h2
        exact Or.inl ⟨hfull, h2.symm, h1.symm⟩

/-- The value `ClientRequestAndWaitForResponse` hands on from `ClientPend` is
the one `ClientPend` returned. -/
theorem ClientRequestAndWaitForResponse_of_send (s s1 : BiDirectionalMailbox)
    (id : Int) (m out : MsgPtr) (h : s.sendStep m = Res.ret s1 true) :
    s.ClientRequestAndWaitForResponse id m out = s1.ClientPend id out := by
  unfold ClientRequestAndWaitForResponse
  rw [h]
  simp only
  cases hc : s1.ClientPend id out with
  | ret s2 v =>
    obtain ⟨b, r⟩ := v
    cases b <;> simp
  | blocked s2 => rfl
  | fault s2 => rfl

theorem ClientRequestAndWaitForResponse_ret_inv (s s2 : BiDirectionalMailbox)
    (id : Int) (m out : MsgPtr) (v : Bool × MsgPtr)
    (h : s.ClientRequestAndWaitForResponse id m out = Res.ret s2 v) :
    (s.sendStep m = Res.ret s false ∧ s2 = s ∧ v = (false, out)) ∨
    ∃ s1, s.sendStep m = Res.ret s1 true ∧ s1.ClientPend id out = Res.ret s2 v := by
  cases hs : s.sendStep m with
  | ret s1 b =>
    cases b with
    | true =>
      rw [ClientRequestAndWaitForResponse_of_send s s1 id m out hs] at h
      exact Or.inr ⟨s1, rfl, h⟩
    | false =>
      obtain ⟨i, q, _, _, hc⟩ := sendStep_ret_inv s s1 m false hs
      rcases hc with ⟨_, _, h1⟩ | ⟨_, hb, _⟩
      · subst h1
        simp only [ClientRequestAndWaitForResponse, hs] at h
        injection h with h1 h2
        exact Or.inl ⟨rfl, h1.symm, h2.symm⟩
      · cases hb
  | blocked s1 => simp [ClientRequestAndWaitForResponse, hs] at h
  | fault s1 => simp [ClientRequestAndWaitForResponse, hs] at h

/-! ## The reachable states are well formed -/

theorem WF.construct (size_in : Nat) : WF (construct size_in) := by
  refine ⟨⟨0, rfl, by simp [BiDirectionalMailbox.construct, Mailbox_create]⟩, ?_, ?_, ?_⟩
  · intro id h hf
    simp [BiDirectionalMailbox.construct, mapFind] at hf
  · intro id id1 h hf
    simp [BiDirectionalMailbox.construct, mapFind] at hf
  · intro q hq
    simp [BiDirectionalMailbox.construct, Mailbox_create] at hq
    subst hq
    simp [BiDirectionalMailbox.construct]

theorem WF.setMsgs (s : BiDirectionalMailbox) (hw : WF s) (i : Nat) (q : Mailbox)
    (msgs1 : List Envelope) (hq : s.heap[i]? = some q)
    (hl : msgs1.length ≤ q.numMsgs) :
    WF { s with heap := s.heap.set i { q with msgs := msgs1 } } := by
  have hqmem : q ∈ s.heap := List.mem_iff_getElem?.mpr ⟨i, hq⟩
  refine ⟨?_, ?_, hw.inj, ?_⟩
  · obtain ⟨j, hj, hlt⟩ := hw.server
    exact ⟨j, hj, by simpa using hlt⟩
  · intro id h hf
    obtain ⟨j, hj, hlt, hne⟩ := hw.client id h hf
    exact ⟨j, hj, by simpa using hlt, hne⟩
  · intro q1 hq1
    rcases List.mem_or_eq_of_mem_set hq1 with hmem | heq
    · exact hw.cap q1 hmem
    · subst heq
      exact ⟨(hw.cap q hqmem).1, hl⟩

theorem WF.InitClient (s : BiDirectionalMailbox) (hw : WF s) (id : Int) :
    WF (s.InitClient id) := by
  refine ⟨?_, ?_, ?_, ?_⟩
  · obtain ⟨j, hj, hlt⟩ := hw.server
    exact ⟨j, hj, by simp [BiDirectionalMailbox.InitClient, Mailbox_create]; omega⟩
  · intro id1 h hf
    simp only [BiDirectionalMailbox.InitClient, Mailbox_create, mapFind_mapAssign] at hf
    by_cases hid : id = id1
    · simp only [hid, if_true, Option.some.injEq] at hf
      subst hf
      refine ⟨s.heap.length, rfl, by simp [BiDirectionalMailbox.InitClient, Mailbox_create], ?_⟩
      obtain ⟨j, hj, hlt⟩ := hw.server
      intro hc
      simp only [BiDirectionalMailbox.InitClient] at hc
      rw [hj] at hc
      injection hc with hc
      omega
    · simp only [hid, if_false] at hf
      obtain ⟨j, hj, hlt, hne⟩ := hw.client id1 h hf
      exact ⟨j, hj, by simp [BiDirectionalMailbox.InitClient, Mailbox_create]; omega, hne⟩
  · intro a b h ha hb
    simp only [BiDirectionalMailbox.InitClient, Mailbox_create, mapFind_mapAssign] at ha hb
    by_cases h1 : id = a <;> by_cases h2 : id = b
    · rw [← h1, ← h2]
    · simp only [h1, if_true, Option.some.injEq] at ha
      simp only [h2, if_false] at hb
      obtain ⟨j, hj, hlt, _⟩ := hw.client b h hb
      rw [← ha] at hj
      injection hj with hj
      omega
    · simp only [h2, if_true, Option.some.injEq] at hb
      simp only [h1, if_false] at ha
      obtain ⟨j, hj, hlt, _⟩ := hw.client a h ha
      rw [← hb] at hj
      injection hj with hj
      omega
    · simp only [h1, if_false] at ha
      simp only [h2, if_false] at hb
      exact hw.inj a b h ha hb
  · intro q hq
    simp only [BiDirectionalMailbox.InitClient, Mailbox_create, List.mem_append,
      List.mem_singleton] at hq
    rcases hq with hmem | heq
    · exact hw.cap q hmem
    · subst heq
      simp [BiDirectionalMailbox.InitClient]

theorem WF.ClientPend (s s1 : BiDirectionalMailbox) (hw : WF s) (id : Int)
    (out : MsgPtr) (v : Bool × MsgPtr) (h : s.ClientPend id out = Res.ret s1 v) :
    WF s1 := by
  obtain ⟨i, q, _, hq, hc⟩ := ClientPend_ret_inv s s1 id out v h
  rcases hc with ⟨_, h1, _⟩ | ⟨e, rest, hm, h1, _⟩
  · rw [h1]; exact hw
  · rw [h1]
    have hcap := (hw.cap q (List.mem_iff_getElem?.mpr ⟨i, hq⟩)).2
    rw [hm] at hcap
    exact WF.setMsgs s hw i q rest hq (by simp at hcap; omega)

theorem WF.sendStep (s s1 : BiDirectionalMailbox) (hw : WF s) (m : MsgPtr) (b : Bool)
    (h : s.sendStep m = Res.ret s1 b) : WF s1 := by
  obtain ⟨i, q, _, hq, hc⟩ := sendStep_ret_inv s s1 m b h
  rcases hc with ⟨_, _, h1⟩ | ⟨hfree, _, h1⟩
  · rw [h1]; exact hw
  · rw [h1]
    exact WF.setMsgs s hw i q _ hq (by simp; omega)

theorem WF.step (s s1 : BiDirectionalMailbox) (hw : WF s) (op : Op)
    (hop : op.run s = Res.ret s1 ()) : WF s1 := by
  cases op with
  | InitClient id =>
    simp only [Op.run] at hop
    injection hop with h1
    rw [← h1]
    exact WF.InitClient s hw id
  | ServerPend msg =>
    simp only [Op.run] at hop
    cases hr : s.ServerPend msg with
    | ret s2 v =>
      rw [hr] at hop
      simp only [ignoreValue] at hop
      injection hop with h1
      subst h1
      obtain ⟨i, q, e, rest, _, hq, hm, h1, _⟩ := ServerPend_ret_inv s s2 msg v hr
      rw [h1]
      have hcap := (hw.cap q (List.mem_iff_getElem?.mpr ⟨i, hq⟩)).2
      rw [hm] at hcap
      exact WF.setMsgs s hw i q rest hq (by simp at hcap; omega)
    | blocked s2 => rw [hr] at hop; simp [ignoreValue] at hop
    | fault s2 => rw [hr] at hop; simp [ignoreValue] at hop
  | ServerRespondToClient id m =>
    simp only [Op.run] at hop
    cases hr : s.ServerRespondToClient id m with
    | ret s2 v =>
      rw [hr] at hop
      simp only [ignoreValue] at hop
      injection hop with h1
      subst h1
      obtain ⟨i, q, _, hq, hfree, _, h1⟩ := ServerRespondToClient_ret_inv s s2 id m v hr
      rw [h1]
      exact WF.setMsgs s hw i q _ hq (by simp; omega)
    | blocked s2 => rw [hr] at hop; simp [ignoreValue] at hop
    | fault s2 => rw [hr] at hop; simp [ignoreValue] at hop
  | ClientPend id msg =>
    simp only [Op.run] at hop
    cases hr : s.ClientPend id msg with
    | ret s2 v =>
      rw [hr] at hop
      simp only [ignoreValue] at hop
      injection hop with h1
      subst h1
      exact WF.ClientPend s s2 hw id msg v hr
    | blocked s2 => rw [hr] at hop; simp [ignoreValue] at hop
    | fault s2 => rw [hr] at hop; simp [ignoreValue] at hop
  | ClientRequestAndWaitForResponse id m r =>
    simp only [Op.run] at hop
    cases hr : s.ClientRequestAndWaitForResponse id m r with
    | ret s2 v =>
      rw [hr] at hop
      simp only [ignoreValue] at hop
      injection hop with h1
      subst h1
      rcases ClientRequestAndWaitForResponse_ret_inv s s2 id m r v hr with
        ⟨_, h1, _⟩ | ⟨s3, hs, hp⟩
      · rw [h1]; exact hw
      · exact WF.ClientPend s3 s2 (WF.sendStep s s3 hw m true hs) id r v hp
    | blocked s2 => rw [hr] at hop; simp [ignoreValue] at hop
    | fault s2 => rw [hr] at hop; simp [ignoreValue] at hop
  | ClientRequestNoWait id m =>
    simp only [Op.run] at hop
    cases hr : s.ClientRequestNoWait id m with
    | ret s2 v =>
      rw [hr] at hop
      simp only [ignoreValue] at hop
      injection hop with h1
      subst h1
      obtain ⟨i, q, _, hq, hfree, _, h1⟩ := ClientRequestNoWait_ret_inv s s2 id m v hr
      rw [h1]
      exact WF.setMsgs s hw i q _ hq (by simp; omega)
    | blocked s2 => rw [hr] at hop; simp [ignoreValue] at hop
    | fault s2 => rw [hr] at hop; simp [ignoreValue] at hop

/-- Every reachable state is well formed. -/
theorem Reachable.wf (s : BiDirectionalMailbox) (h : Reachable s) : WF s := by
  induction h with
  | construct size_in _ => exact WF.construct size_in
  | step s s1 op _ hop ih => exact WF.step s s1 ih op hop

/-- In a reachable state every id of the registry is bound to a mailbox. -/
theorem registered_has_queue (s : BiDirectionalMailbox) (hr : Reachable s) (id : Int)
    (hreg : id ∈ s.registeredIds) : ∃ q, s.clientQueue id = some q := by
  have hw := Reachable.wf s hr
  have hsome := (mapFind_isSome_iff s.Mbx_client id).mpr hreg
  obtain ⟨h, hf⟩ := Option.isSome_iff_exists.mp hsome
  obtain ⟨j, hj, hlt, _⟩ := hw.client id h hf
  subst hj
  exact ⟨s.heap[j], by simp [clientQueue, deref, hf, List.getElem?_eq_getElem hlt]⟩

/-! ## Queues after an update of one mailbox -/

theorem serverQueue_set_self (s : BiDirectionalMailbox) (i : Nat) (q x : Mailbox)
    (hi : s.Mbx_Server = some i) (hq : s.heap[i]? = some q) :
    serverQueue { s with heap := s.heap.set i x } = some x := by
  have hlt : i < s.heap.length := (List.getElem?_eq_some.mp hq).1
  simp [serverQueue, deref, hi, List.getElem?_set_self hlt]

theorem clientQueue_set_self (s : BiDirectionalMailbox) (id : Int) (i : Nat)
    (q x : Mailbox) (hf : mapFind s.Mbx_client id = some (some i))
    (hq : s.heap[i]? = some q) :
    clientQueue { s with heap := s.heap.set i x } id = some x := by
  have hlt : i < s.heap.length := (List.getElem?_eq_some.mp hq).1
  simp [clientQueue, deref, hf, List.getElem?_set_self hlt]

theorem serverQueue_set_client (s : BiDirectionalMailbox) (hw : WF s) (id : Int)
    (i : Nat) (x : Mailbox) (hf : mapFind s.Mbx_client id = some (some i)) :
    serverQueue { s with heap := s.heap.set i x } = s.serverQueue := by
  obtain ⟨j, hj, _, hne⟩ := hw.client id (some i) hf
  injection hj with hj
  subst hj
  obtain ⟨k, hk, _⟩ := hw.server
  have hki : i ≠ k := by
    intro e
    apply hne
    rw [hk, e]
  simp [serverQueue, deref, hk, List.getElem?_set_ne hki]

theorem clientQueue_set_server (s : BiDirectionalMailbox) (hw : WF s) (i : Nat)
    (x : Mailbox) (hi : s.Mbx_Server = some i) (id : Int) :
    clientQueue { s with heap := s.heap.set i x } id = s.clientQueue id := by
  unfold clientQueue
  simp only
  obtain ⟨_ | h, hf⟩ : ∃ y, mapFind s.Mbx_client id = y := ⟨_, rfl⟩
  · simp [hf]
  · obtain ⟨j, hj, _, hne⟩ := hw.client id h hf
    subst hj
    have hij : i ≠ j := by
      intro e
      apply hne
      rw [hi, e]
    simp [hf, deref, List.getElem?_set_ne hij]

theorem clientQueue_set_other (s : BiDirectionalMailbox) (hw : WF s) (id id1 : Int)
    (i : Nat) (x : Mailbox) (hf : mapFind s.Mbx_client id = some (some i))
    (hne : id1 ≠ id) :
    clientQueue { s with heap := s.heap.set i x } id1 = s.clientQueue id1 := by
  unfold clientQueue
  simp only
  obtain ⟨_ | h, hf1⟩ : ∃ y, mapFind s.Mbx_client id1 = y := ⟨_, rfl⟩
  · simp [hf1]
  · obtain ⟨j, hj, _, _⟩ := hw.client id1 h hf1
    subst hj
    have hij : i ≠ j := by
      intro e
      apply hne
      rw [e] at hf
      exact hw.inj id1 id (some j) hf1 hf
    simp [hf1, deref, List.getElem?_set_ne hij]

/-! ## The claims -/

/-- C1 (amended). Round trip on a client queue that has at least one slot:
for every state, every id `c` registered to a queue that is empty and has
capacity at least 1, and every message `r`, `ServerRespondToClient(c, r)`
returns true with `r` alone in the queue of `c`, and the `ClientPend(c)` that
follows returns true and hands back exactly `r`; the state after the two calls
is the state before them, so the queue of `c` is empty again. -/
theorem round_trip (s : BiDirectionalMailbox) (c : Int) (q : Mailbox)
    (r out : MsgPtr) (hq : s.clientQueue c = some q) (hempty : q.msgs = [])
    (hcap : 0 < q.numMsgs) :
    ∃ s1, s.ServerRespondToClient c r = Res.ret s1 true ∧
      s1.clientQueue c = some { q with msgs := [{ msg := r }] } ∧
      s1.ClientPend c out = Res.ret s (true, r) ∧
      s.clientQueue c = some { q with msgs := [] } := by
  obtain ⟨i, hf, hqi⟩ := clientQueue_eq_some s c q hq
  have hlt : i < s.heap.length := (List.getElem?_eq_some.mp hqi).1
  have hfree : q.msgs.length < q.numMsgs := by rw [hempty]; simpa using hcap
  refine ⟨_, ServerRespondToClient_free s c r i q hf hqi hfree, ?_, ?_, ?_⟩
  · rw [clientQueue_set_self s c i q _ hf hqi, hempty]; rfl
  · rw [ClientPend_cons
      { s with heap := s.heap.set i { q with msgs := q.msgs ++ [{ msg := r }] } }
      c out i { q with msgs := q.msgs ++ [{ msg := r }] }
      { msg := r } [] hf (by simp [List.getElem?_set_self hlt]) (by simp [hempty])]
    have hq0 : ({ numMsgs := q.numMsgs, msgs := [] } : Mailbox) = q := by
      cases q
      simp only at hempty
      subst hempty
      rfl
    simp only [List.set_set, hq0, set_of_getElem? s.heap i q hqi]
  · rw [hq, ← hempty]

/-- Witness of C1 (amended): capacity 4, client 7 registered, reply 43. -/
theorem round_trip_witness :
    ∃ s1, ((construct 4).InitClient 7).ServerRespondToClient 7 43 = Res.ret s1 true ∧
      s1.clientQueue 7 = some { numMsgs := 4, msgs := [{ msg := 43 }] } ∧
      s1.ClientPend 7 0 = Res.ret ((construct 4).InitClient 7) (true, 43) ∧
      ((construct 4).InitClient 7).clientQueue 7 = some { numMsgs := 4, msgs := [] } :=
  round_trip ((construct 4).InitClient 7) 7 { numMsgs := 4, msgs := [] } 43 0
    (by decide) rfl (by decide)

/-- C1 as stated fails on a mailbox constructed with capacity 0: client 7 is
registered and its queue is empty, yet `ServerRespondToClient(7, 43)` never
returns (the queue has no slot), so no reply is handed back. -/
theorem respond_blocks_at_capacity_zero :
    Reachable ((construct 0).InitClient 7) ∧
    ((construct 0).InitClient 7).clientQueue 7 = some { numMsgs := 0, msgs := [] } ∧
    ((construct 0).InitClient 7).ServerRespondToClient 7 43
      = Res.blocked ((construct 0).InitClient 7) ∧
    (((construct 0).InitClient 7).ServerRespondToClient 7 43).returned = false :=
  ⟨Reachable.step (construct 0) _ (Op.InitClient 7)
      (Reachable.construct 0 (by decide)) rfl,
    by decide, by decide, by decide⟩

/-- C9. Bounded wait: in every reachable state and for every registered id,
`ClientPend(id, out)` returns, and it returns true exactly when the queue of
`id` holds a reply.  When the queue is empty it returns false and the whole
state and `out` are unchanged.  When the queue holds replies it returns true,
`out` is the oldest reply, exactly that envelope is removed from the queue of
`id`, and the server queue, every other client queue and the registry are
unchanged. -/
theorem bounded_wait (s : BiDirectionalMailbox) (hr : Reachable s) (id : Int)
    (q : Mailbox) (out : MsgPtr) (hq : s.clientQueue id = some q) :
    ((∃ s1 m, s.ClientPend id out = Res.ret s1 (true, m)) ↔ q.msgs ≠ []) ∧
    (q.msgs = [] → s.ClientPend id out = Res.ret s (false, out)) ∧
    (∀ e rest, q.msgs = e :: rest →
      ∃ s1, s.ClientPend id out = Res.ret s1 (true, e.msg) ∧
        s1.clientQueue id = some { q with msgs := rest } ∧
        s1.serverQueue = s.serverQueue ∧
        (∀ id1, id1 ≠ id → s1.clientQueue id1 = s.clientQueue id1) ∧
        s1.Mbx_client = s.Mbx_client) := by
  have hw := Reachable.wf s hr
  obtain ⟨i, hf, hqi⟩ := clientQueue_eq_some s id q hq
  refine ⟨?_, ?_, ?_⟩
  · constructor
    · rintro ⟨s1, m, h⟩ hnil
      rw [ClientPend_empty s id out i q hf hqi hnil] at h
      injection h with _ h2
      cases h2
    · intro hne
      obtain ⟨_ | ⟨e, rest⟩, hm⟩ : ∃ x, q.msgs = x := ⟨_, rfl⟩
      · exact absurd hm hne
      · exact ⟨_, e.msg, ClientPend_cons s id out i q e rest hf hqi hm⟩
  · intro hnil
    exact ClientPend_empty s id out i q hf hqi hnil
  · intro e rest hm
    refine ⟨_, ClientPend_cons s id out i q e rest hf hqi hm, ?_, ?_, ?_, rfl⟩
    · exact clientQueue_set_self s id i q _ hf hqi
    · exact serverQueue_set_client s hw id i _ hf
    · intro id1 hne
      exact clientQueue_set_other s hw id id1 i _ hf hne

/-- Witness of C9: capacity 4, client 7 registered, one reply (43) pending. -/
theorem bounded_wait_witness :
    Reachable (((construct 4).InitClient 7).ServerRespondToClient 7 43).state ∧
    ((∃ s1 m, (((construct 4).InitClient 7).ServerRespondToClient 7 43).state.ClientPend 7 0
        = Res.ret s1 (true, m)) ↔
      ({ numMsgs := 4, msgs := [{ msg := 43 }] } : Mailbox).msgs ≠ []) :=
  ⟨Reachable.step _ _ (Op.ServerRespondToClient 7 43)
      (Reachable.step (construct 4) _ (Op.InitClient 7)
        (Reachable.construct 4 (by decide)) rfl) rfl,
    (bounded_wait (((construct 4).InitClient 7).ServerRespondToClient 7 43).state
      (Reachable.step _ _ (Op.ServerRespondToClient 7 43)
        (Reachable.step (construct 4) _ (Op.InitClient 7)
          (Reachable.construct 4 (by decide)) rfl) rfl)
      7 { numMsgs := 4, msgs := [{ msg := 43 }] } 0 (by decide)).1⟩

/-! ## FIFO order on the server queue -/

theorem Request.post_free (s : BiDirectionalMailbox) (r : Request) (i : Nat)
    (q : Mailbox) (hi : s.Mbx_Server = some i) (hq : s.heap[i]? = some q)
    (hfree : q.msgs.length < q.numMsgs) :
    r.post s =
      Res.ret { s with heap := s.heap.set i { q with msgs := q.msgs ++ [{ msg := r.msg }] } }
        true := by
  cases r with
  | noWait id m => exact ClientRequestNoWait_free s id m i q hi hq hfree
  | sendAndWait id m => exact sendStep_free s i q m hi hq hfree

theorem postAll_spec (reqs : List Request) :
    ∀ (s : BiDirectionalMailbox) (i : Nat) (q : Mailbox),
      s.Mbx_Server = some i → s.heap[i]? = some q →
      q.msgs.length + reqs.length ≤ q.numMsgs →
      ∃ s1, postAll s reqs = some s1 ∧ s1.Mbx_Server = some i ∧
        s1.heap[i]? =
          some { q with msgs := q.msgs ++ reqs.map (fun r => { msg := r.msg }) } := by
  induction reqs with
  | nil =>
    intro s i q hi hq _
    exact ⟨s, rfl, hi, by simpa using hq⟩
  | cons r rs ih =>
    intro s i q hi hq hlen
    have hlt : i < s.heap.length := (List.getElem?_eq_some.mp hq).1
    have hfree : q.msgs.length < q.numMsgs := by
      simp only [List.length_cons] at hlen
      omega
    obtain ⟨s1, h1, h2, h3⟩ :=
      ih { s with heap := s.heap.set i { q with msgs := q.msgs ++ [{ msg := r.msg }] } }
        i { q with msgs := q.msgs ++ [{ msg := r.msg }] } hi
        (by simp [List.getElem?_set_self hlt])
        (by simp only [List.length_append, List.length_cons, List.length_nil] at hlen ⊢
            omega)
    refine ⟨s1, ?_, h2, ?_⟩
    · simp only [postAll, Request.post_free s r i q hi hq hfree]
      exact h1
    · rw [h3]
      simp

theorem serverPendN_spec (msgs : List Envelope) :
    ∀ (s : BiDirectionalMailbox) (i : Nat) (q : Mailbox) (out : MsgPtr),
      s.Mbx_Server = some i → s.heap[i]? = some q → q.msgs = msgs →
      ∃ s1, serverPendN s out msgs.length = some (msgs.map Envelope.msg, s1) ∧
        s1.Mbx_Server = some i ∧ s1.heap[i]? = some { q with msgs := [] } := by
  induction msgs with
  | nil =>
    intro s i q out hi hq hm
    refine ⟨s, rfl, hi, ?_⟩
    rw [hq, ← hm]
  | cons e rest ih =>
    intro s i q out hi hq hm
    have hlt : i < s.heap.length := (List.getElem?_eq_some.mp hq).1
    obtain ⟨s1, h1, h2, h3⟩ :=
      ih { s with heap := s.heap.set i { q with msgs := rest } } i
        { q with msgs := rest } e.msg hi (by simp [List.getElem?_set_self hlt]) rfl
    refine ⟨s1, ?_, h2, h3⟩
    simp only [List.length_cons, serverPendN, ServerPend_cons s out i q e rest hi hq hm,
      h1, List.map_cons]

/-- C2. Global FIFO on the server queue: for every sequence of K requests
(calls of `ClientRequestNoWait` or send steps of
`ClientRequestAndWaitForResponse`, with any client ids) made on an empty
server queue of capacity at least K, every enqueue returns true, and the K
calls of `ServerPend` that follow each return true and hand back exactly the
messages of the requests, each once, in the order of the enqueues; the server
queue is empty afterwards. -/
theorem server_fifo (s : BiDirectionalMailbox) (q : Mailbox) (reqs : List Request)
    (out : MsgPtr) (hq : s.serverQueue = some q) (hempty : q.msgs = [])
    (hcap : reqs.length ≤ q.numMsgs) :
    ∃ s1, postAll s reqs = some s1 ∧
      s1.serverQueue = some { q with msgs := reqs.map (fun r => { msg := r.msg }) } ∧
      ∃ s2, serverPendN s1 out reqs.length = some (reqs.map Request.msg, s2) ∧
        s2.serverQueue = some { q with msgs := [] } := by
  obtain ⟨i, hi, hqi⟩ := serverQueue_eq_some s q hq
  obtain ⟨s1, h1, h2, h3⟩ := postAll_spec reqs s i q hi hqi (by rw [hempty]; simpa using hcap)
  rw [hempty, List.nil_append] at h3
  obtain ⟨s2, h4, h5, h6⟩ :=
    serverPendN_spec (reqs.map (fun r => { msg := r.msg })) s1 i _ out h2 h3 rfl
  refine ⟨s1, h1, by simp [serverQueue, deref, h2, h3], s2, ?_, ?_⟩
  · simpa [Function.comp_def] using h4
  · simpa [serverQueue, deref, h5] using h6

/-- Witness of C2: three requests from clients 7, 9 and 7 on capacity 4. -/
theorem server_fifo_witness :
    ∃ s1, postAll (construct 4)
        [Request.noWait 7 42, Request.sendAndWait 9 1, Request.noWait 7 5] = some s1 ∧
      s1.serverQueue = some { numMsgs := 4, msgs := [{ msg := 42 }, { msg := 1 }, { msg := 5 }] } ∧
      ∃ s2, serverPendN s1 0 3 = some ([42, 1, 5], s2) ∧
        s2.serverQueue = some { numMsgs := 4, msgs := [] } :=
  server_fifo (construct 4) { numMsgs := 4, msgs := [] }
    [Request.noWait 7 42, Request.sendAndWait 9 1, Request.noWait 7 5] 0
    (by decide) rfl (by decide)

/-- C4. Send-then-await: in every reachable state whose server queue has a
free slot, for every id and message `m`, the send step of
`ClientRequestAndWaitForResponse(id, m, out)` returns true and appends `m` at
the tail of the server queue, leaving every client queue and the registry as
they were, and the call returns exactly what `ClientPend(id, out)` returns on
that state.  In particular, when the queue of `id` is empty (and, no other
task acting, no reply arrives) the call returns false with `out` unchanged,
while `m` stays in the server queue and the queue of `id` is still empty. -/
theorem send_then_await (s : BiDirectionalMailbox) (hr : Reachable s) (q : Mailbox)
    (id : Int) (m out : MsgPtr) (hq : s.serverQueue = some q)
    (hfree : q.msgs.length < q.numMsgs) :
    ∃ s1, s.sendStep m = Res.ret s1 true ∧
      s1.serverQueue = some { q with msgs := q.msgs ++ [{ msg := m }] } ∧
      (∀ c, s1.clientQueue c = s.clientQueue c) ∧
      s1.Mbx_client = s.Mbx_client ∧
      s.ClientRequestAndWaitForResponse id m out = s1.ClientPend id out ∧
      (∀ cq, s.clientQueue id = some cq → cq.msgs = [] →
        s.ClientRequestAndWaitForResponse id m out = Res.ret s1 (false, out) ∧
        s1.clientQueue id = some cq) := by
  have hw := Reachable.wf s hr
  obtain ⟨i, hi, hqi⟩ := serverQueue_eq_some s q hq
  have hsend := sendStep_free s i q m hi hqi hfree
  have hcq : ∀ c, clientQueue
      { s with heap := s.heap.set i { q with msgs := q.msgs ++ [{ msg := m }] } } c
      = s.clientQueue c := fun c => clientQueue_set_server s hw i _ hi c
  refine ⟨_, hsend, serverQueue_set_self s i q _ hi hqi, hcq, rfl,
    ClientRequestAndWaitForResponse_of_send s _ id m out hsend, ?_⟩
  intro cq hcqid hnil
  rw [ClientRequestAndWaitForResponse_of_send s _ id m out hsend]
  have h1 := hcq id
  rw [hcqid] at h1
  obtain ⟨j, hf, hqj⟩ := clientQueue_eq_some _ id cq h1
  exact ⟨ClientPend_empty _ id out j cq hf hqj hnil, h1⟩

/-- Witness of C4: capacity 4, client 9 registered, request 1, no reply. -/
theorem send_then_await_witness :
    Reachable ((construct 4).InitClient 9) ∧
    ∃ s1, ((construct 4).InitClient 9).sendStep 1 = Res.ret s1 true ∧
      s1.serverQueue = some { numMsgs := 4, msgs := [] ++ [{ msg := 1 }] } ∧
      (∀ c, s1.clientQueue c = ((construct 4).InitClient 9).clientQueue c) ∧
      s1.Mbx_client = ((construct 4).InitClient 9).Mbx_client ∧
      ((construct 4).InitClient 9).ClientRequestAndWaitForResponse 9 1 0
        = s1.ClientPend 9 0 ∧
      (∀ cq, ((construct 4).InitClient 9).clientQueue 9 = some cq → cq.msgs = [] →
        ((construct 4).InitClient 9).ClientRequestAndWaitForResponse 9 1 0
          = Res.ret s1 (false, 0) ∧
        s1.clientQueue 9 = some cq) :=
  ⟨Reachable.step (construct 4) _ (Op.InitClient 9)
      (Reachable.construct 4 (by decide)) rfl,
    send_then_await ((construct 4).InitClient 9)
      (Reachable.step (construct 4) _ (Op.InitClient 9)
        (Reachable.construct 4 (by decide)) rfl)
      { numMsgs := 4, msgs := [] } 9 1 0 (by decide) (by decide)⟩

/-- C8. Fire-and-forget never drops: in every reachable state, whenever
`ClientRequestNoWait(id, m)` returns it returns true, the server queue is the
one before with `m` appended at the tail (within the capacity), and every
client queue and the registry are unchanged; the id argument plays no role.
With a free slot the call does return.  On a full server queue the call does
not return and changes nothing, and once a `ServerPend` has taken an envelope
out, the call returns true with `m` appended. -/
theorem no_wait_never_drops (s : BiDirectionalMailbox) (hr : Reachable s)
    (id : Int) (m : MsgPtr) :
    (∀ s1 b, s.ClientRequestNoWait id m = Res.ret s1 b →
      b = true ∧
      ∃ q, s.serverQueue = some q ∧
        s1.serverQueue = some { q with msgs := q.msgs ++ [{ msg := m }] } ∧
        (q.msgs ++ [({ msg := m } : Envelope)]).length ≤ q.numMsgs ∧
        (∀ c, s1.clientQueue c = s.clientQueue c) ∧
        s1.Mbx_client = s.Mbx_client) ∧
    (∀ id1, s.ClientRequestNoWait id1 m = s.ClientRequestNoWait id m) ∧
    ∃ q, s.serverQueue = some q ∧
      (q.msgs.length < q.numMsgs → (s.ClientRequestNoWait id m).returned = true) ∧
      (q.numMsgs ≤ q.msgs.length →
        s.ClientRequestNoWait id m = Res.blocked s ∧
        ∀ out s1 v, s.ServerPend out = Res.ret s1 v →
          ∃ s2, s1.ClientRequestNoWait id m = Res.ret s2 true ∧
            s2.serverQueue = some { q with msgs := q.msgs.tail ++ [{ msg := m }] }) := by
  have hw := Reachable.wf s hr
  refine ⟨?_, fun _ => rfl, ?_⟩
  · intro s1 b h
    obtain ⟨i, q, hi, hqi, hfree, hb, h1⟩ := ClientRequestNoWait_ret_inv s s1 id m b h
    refine ⟨hb, q, by simp [serverQueue, deref, hi, hqi], ?_, ?_, ?_, ?_⟩
    · rw [h1]; exact serverQueue_set_self s i q _ hi hqi
    · simp only [List.length_append, List.length_cons, List.length_nil]; omega
    · intro c; rw [h1]; exact clientQueue_set_server s hw i _ hi c
    · rw [h1]
  · obtain ⟨i, hi, hlt⟩ := hw.server
    obtain ⟨q, hqi⟩ : ∃ q, s.heap[i]? = some q :=
      ⟨s.heap[i], List.getElem?_eq_getElem hlt⟩
    refine ⟨q, by simp [serverQueue, deref, hi, hqi], ?_, ?_⟩
    · intro hfree
      rw [ClientRequestNoWait_free s id m i q hi hqi hfree]
      rfl
    · intro hfull
      refine ⟨ClientRequestNoWait_full s id m i q hi hqi hfull, ?_⟩
      intro out s1 v hp
      obtain ⟨i1, q1, e, rest, hi1, hq1, hm, h1, _⟩ := ServerPend_ret_inv s s1 out v hp
      rw [hi] at hi1
      injection hi1 with hi1
      subst hi1
      rw [hqi] at hq1
      injection hq1 with hq1
      subst hq1
      have hcap := (hw.cap q (List.mem_iff_getElem?.mpr ⟨i, hqi⟩)).2
      rw [hm] at hcap
      simp only [List.length_cons] at hcap
      have hq2 : s1.heap[i]? = some { q with msgs := rest } := by
        rw [h1]
        simp [List.getElem?_set_self hlt]
      have hi2 : s1.Mbx_Server = some i := by rw [h1]; exact hi
      refine ⟨_, ClientRequestNoWait_free s1 id m i { q with msgs := rest } hi2 hq2
        (by simp only []; omega), ?_⟩
      rw [serverQueue_set_self s1 i _ _ hi2 hq2, hm]
      rfl

/-- Witness of C8: capacity 4, no request pending, request 42 from client 7. -/
theorem no_wait_never_drops_witness :
    Reachable (construct 4) ∧
    (construct 4).ClientRequestNoWait 7 42 =
      Res.ret { heap := [{ numMsgs := 4, msgs := [{ msg := 42 }] }],
                Mbx_Server := some 0, Mbx_client := [], size := 4 } true ∧
    (∀ s1 b, (construct 4).ClientRequestNoWait 7 42 = Res.ret s1 b →
      b = true ∧
      ∃ q, (construct 4).serverQueue = some q ∧
        s1.serverQueue = some { q with msgs := q.msgs ++ [{ msg := 42 }] } ∧
        (q.msgs ++ [({ msg := 42 } : Envelope)]).length ≤ q.numMsgs ∧
        (∀ c, s1.clientQueue c = (construct 4).clientQueue c) ∧
        s1.Mbx_client = (construct 4).Mbx_client) :=
  ⟨Reachable.construct 4 (by decide), by decide,
    (no_wait_never_drops (construct 4) (Reachable.construct 4 (by decide)) 7 42).1⟩

/-! ## The registry across calls -/

theorem mapFind_mapIndex (m : ClientMap) (id id1 : Int) (h : Mailbox_Handle)
    (hf : mapFind m id = some h) : mapFind (mapIndex m id1).1 id = some h := by
  obtain ⟨_ | h1, hf1⟩ : ∃ y, mapFind m id1 = y := ⟨_, rfl⟩
  · rw [mapIndex_of_none m id1 hf1]
    simp only
    rw [mapFind_append_none m id1 id none hf1]
    have hne : ¬ id1 = id := by
      intro e
      rw [e, hf] at hf1
      cases hf1
    simp [hne, hf]
  · rw [mapIndex_of_some m id1 h1 hf1]
    exact hf

theorem ClientPend_registry (s : BiDirectionalMailbox) (id : Int) (out : MsgPtr) :
    (s.ClientPend id out).state.Mbx_client = (mapIndex s.Mbx_client id).1 := by
  unfold ClientPend
  simp only
  split <;> rfl

theorem ServerRespondToClient_registry (s : BiDirectionalMailbox) (id : Int)
    (m : MsgPtr) :
    (s.ServerRespondToClient id m).state.Mbx_client = (mapIndex s.Mbx_client id).1 := by
  unfold ServerRespondToClient
  simp only
  split <;> rfl

theorem ServerPend_registry (s : BiDirectionalMailbox) (out : MsgPtr) :
    (s.ServerPend out).state.Mbx_client = s.Mbx_client := by
  unfold ServerPend
  split <;> rfl

theorem ClientRequestNoWait_registry (s : BiDirectionalMailbox) (id : Int)
    (m : MsgPtr) : (s.ClientRequestNoWait id m).state.Mbx_client = s.Mbx_client := by
  unfold ClientRequestNoWait
  split <;> rfl

theorem sendStep_registry (s : BiDirectionalMailbox) (m : MsgPtr) :
    (s.sendStep m).state.Mbx_client = s.Mbx_client := by
  unfold sendStep
  split <;> rfl

theorem ClientRequestAndWaitForResponse_registry (s : BiDirectionalMailbox)
    (id : Int) (m out : MsgPtr) :
    (s.ClientRequestAndWaitForResponse id m out).state.Mbx_client = s.Mbx_client ∨
    (s.ClientRequestAndWaitForResponse id m out).state.Mbx_client
      = (mapIndex s.Mbx_client id).1 := by
  have hs := sendStep_registry s m
  cases hsend : s.sendStep m with
  | ret s1 b =>
    rw [hsend] at hs
    simp only [Res.state] at hs
    cases b with
    | false =>
      left
      simp only [ClientRequestAndWaitForResponse, hsend, Res.state]
      exact hs
    | true =>
      right
      rw [ClientRequestAndWaitForResponse_of_send s s1 id m out hsend,
        ClientPend_registry, hs]
  | blocked s1 =>
    rw [hsend] at hs
    left
    simp only [ClientRequestAndWaitForResponse, hsend]
    exact hs
  | fault s1 =>
    rw [hsend] at hs
    left
    simp only [ClientRequestAndWaitForResponse, hsend]
    exact hs

theorem ignoreValue_state {α : Type} (r : Res α) : (ignoreValue r).state = r.state := by
  cases r <;> rfl

/-- For an id that is registered, no call other than `InitClient` changes the
registry, whatever id the call is made for, as long as that id is registered
too; `ServerPend` and `ClientRequestNoWait` change it in no case. -/
theorem registry_unchanged_of_registered (s : BiDirectionalMailbox) (id : Int)
    (h : Mailbox_Handle) (m out : MsgPtr) (hreg : s.clientHandle id = some h) :
    (s.ServerPend out).state.Mbx_client = s.Mbx_client ∧
    (s.ClientRequestNoWait id m).state.Mbx_client = s.Mbx_client ∧
    (s.ServerRespondToClient id m).state.Mbx_client = s.Mbx_client ∧
    (s.ClientPend id out).state.Mbx_client = s.Mbx_client ∧
    (s.ClientRequestAndWaitForResponse id m out).state.Mbx_client = s.Mbx_client := by
  have hix : (mapIndex s.Mbx_client id).1 = s.Mbx_client := by
    rw [mapIndex_of_some s.Mbx_client id h hreg]
  refine ⟨ServerPend_registry s out, ClientRequestNoWait_registry s id m, ?_, ?_, ?_⟩
  · rw [ServerRespondToClient_registry, hix]
  · rw [ClientPend_registry, hix]
  · rcases ClientRequestAndWaitForResponse_registry s id m out with h1 | h1
    · exact h1
    · rw [h1, hix]

/-- C5 as stated fails: on a mailbox of capacity 4 without clients,
`ServerRespondToClient(5, 43)` reports no error; the lookup `Mbx_client[5]`
yields the null handle, the post is made on it, and the state the call ends in
is not the state before. -/
theorem respond_unknown_client_unreported :
    (construct 4).clientHandle 5 = none ∧
    (construct 4).ServerRespondToClient 5 43 =
      Res.fault { heap := [{ numMsgs := 4, msgs := [] }], Mbx_Server := some 0,
                  Mbx_client := [(5, none)], size := 4 } ∧
    ((construct 4).ServerRespondToClient 5 43).state ≠ construct 4 := by
  decide

/-- C5 (amended). `ServerRespondToClient` has no error result and makes no
registration check.  Whenever it returns, it returns true, `id` is registered
and `m` has been appended at the tail of the queue of `id`, the registry being
unchanged; for a registered id whose queue has a free slot it does return.
For an id that was never registered the call does not return a value (the
post is made on the null handle): it reports neither success nor an error,
`m` is put in no queue, and no mailbox, the server handle and `size` are
unchanged. -/
theorem respond_unchecked (s : BiDirectionalMailbox) (id : Int) (m : MsgPtr) :
    (∀ s1 b, s.ServerRespondToClient id m = Res.ret s1 b →
      b = true ∧
      ∃ q, s.clientQueue id = some q ∧ q.msgs.length < q.numMsgs ∧
        s1.clientQueue id = some { q with msgs := q.msgs ++ [{ msg := m }] } ∧
        s1.Mbx_client = s.Mbx_client) ∧
    (∀ q, s.clientQueue id = some q → q.msgs.length < q.numMsgs →
      ∃ s1, s.ServerRespondToClient id m = Res.ret s1 true) ∧
    (s.clientHandle id = none →
      (s.ServerRespondToClient id m).returned = false ∧
      (s.ServerRespondToClient id m).state.heap = s.heap ∧
      (s.ServerRespondToClient id m).state.Mbx_Server = s.Mbx_Server ∧
      (s.ServerRespondToClient id m).state.size = s.size) := by
  refine ⟨?_, ?_, ?_⟩
  · intro s1 b h
    obtain ⟨i, q, hf, hqi, hfree, hb, h1⟩ := ServerRespondToClient_ret_inv s s1 id m b h
    refine ⟨hb, q, by simp [clientQueue, deref, hf, hqi], hfree, ?_, ?_⟩
    · rw [h1]; exact clientQueue_set_self s id i q _ hf hqi
    · rw [h1]
  · intro q hq hfree
    obtain ⟨i, hf, hqi⟩ := clientQueue_eq_some s id q hq
    exact ⟨_, ServerRespondToClient_free s id m i q hf hqi hfree⟩
  · intro hnone
    rw [ServerRespondToClient_unregistered s id m hnone]
    exact ⟨rfl, rfl, rfl, rfl⟩

/-! ## The capacity across calls -/

theorem ServerPend_size (s : BiDirectionalMailbox) (out : MsgPtr) :
    (s.ServerPend out).state.size = s.size := by
  unfold ServerPend
  split <;> rfl

theorem ClientPend_size (s : BiDirectionalMailbox) (id : Int) (out : MsgPtr) :
    (s.ClientPend id out).state.size = s.size := by
  unfold ClientPend
  simp only
  split <;> rfl

theorem ServerRespondToClient_size (s : BiDirectionalMailbox) (id : Int) (m : MsgPtr) :
    (s.ServerRespondToClient id m).state.size = s.size := by
  unfold ServerRespondToClient
  simp only
  split <;> rfl

theorem ClientRequestNoWait_size (s : BiDirectionalMailbox) (id : Int) (m : MsgPtr) :
    (s.ClientRequestNoWait id m).state.size = s.size := by
  unfold ClientRequestNoWait
  split <;> rfl

theorem sendStep_size (s : BiDirectionalMailbox) (m : MsgPtr) :
    (s.sendStep m).state.size = s.size := by
  unfold sendStep
  split <;> rfl

theorem ClientRequestAndWaitForResponse_size (s : BiDirectionalMailbox) (id : Int)
    (m out : MsgPtr) :
    (s.ClientRequestAndWaitForResponse id m out).state.size = s.size := by
  have hs := sendStep_size s m
  cases hsend : s.sendStep m with
  | ret s1 b =>
    rw [hsend] at hs
    simp only [Res.state] at hs
    cases b with
    | false =>
      simp only [ClientRequestAndWaitForResponse, hsend, Res.state]
      exact hs
    | true =>
      rw [ClientRequestAndWaitForResponse_of_send s s1 id m out hsend,
        ClientPend_size, hs]
  | blocked s1 =>
    rw [hsend] at hs
    simp only [ClientRequestAndWaitForResponse, hsend]
    exact hs
  | fault s1 =>
    rw [hsend] at hs
    simp only [ClientRequestAndWaitForResponse, hsend]
    exact hs

/-- No call changes the member `size`. -/
theorem Op.run_size (s : BiDirectionalMailbox) (op : Op) :
    (op.run s).state.size = s.size := by
  cases op with
  | InitClient id => rfl
  | ServerPend msg => simp only [Op.run, ignoreValue_state, ServerPend_size]
  | ServerRespondToClient id m =>
    simp only [Op.run, ignoreValue_state, ServerRespondToClient_size]
  | ClientPend id msg => simp only [Op.run, ignoreValue_state, ClientPend_size]
  | ClientRequestAndWaitForResponse id m r =>
    simp only [Op.run, ignoreValue_state, ClientRequestAndWaitForResponse_size]
  | ClientRequestNoWait id m =>
    simp only [Op.run, ignoreValue_state, ClientRequestNoWait_size]

/-- A sequence of returning calls keeps `size` and leads from a reachable
state to a reachable state. -/
theorem runOps_spec (ops : List Op) :
    ∀ (s s1 : BiDirectionalMailbox), Reachable s → runOps s ops = some s1 →
      Reachable s1 ∧ s1.size = s.size := by
  induction ops with
  | nil =>
    intro s s1 hr h
    simp only [runOps, Option.some.injEq] at h
    subst h
    exact ⟨hr, rfl⟩
  | cons op ops ih =>
    intro s s1 hr h
    have hsz := Op.run_size s op
    cases hop : op.run s with
    | ret s2 u =>
      rw [hop] at hsz
      simp only [Res.state] at hsz
      simp only [runOps, hop] at h
      obtain ⟨h1, h2⟩ := ih s2 s1 (Reachable.step s s2 op hr hop) h
      exact ⟨h1, by rw [h2, hsz]⟩
    | blocked s2 => simp [runOps, hop] at h
    | fault s2 => simp [runOps, hop] at h

/-- C6 as stated fails: the constructor accepts capacity 0 and produces a
mailbox whose server queue has no slot, and for `N = 2 ^ 31` the stored `size`
is negative, not `N`. -/
theorem construct_accepts_zero_capacity :
    construct 0 = { heap := [{ numMsgs := 0, msgs := [] }], Mbx_Server := some 0,
                    Mbx_client := [], size := 0 } ∧
    (construct 0).serverQueue = some { numMsgs := 0, msgs := [] } ∧
    ¬ ((construct 0).serverQueue = some { numMsgs := 0, msgs := [] } ↔ 1 ≤ 0) ∧
    (construct (2 ^ 31)).size = -2147483648 ∧
    (construct (2 ^ 31)).size ≠ ((2 ^ 31 : Nat) : Int) := by
  decide

theorem toUInt32_toInt32 (N : Nat) (hN : N < 2 ^ 32) : toUInt32 (toInt32 N) = N := by
  unfold toUInt32 toInt32
  have h1 : N % 2 ^ 32 = N := Nat.mod_eq_of_lt hN
  rw [h1]
  norm_num at hN ⊢
  split <;> omega

/-- C6 (amended). The constructor validates nothing and cannot fail: for every
unsigned `N`, 0 included, it produces a mailbox without clients whose server
queue is empty and has capacity exactly `N`, and the stored `size` equals `N`
when `N < 2 ^ 31`.  The capacity stays `N` for the lifetime of the mailbox:
after any sequence of returning calls `size` is the value the constructor
stored, the server queue and every client queue have capacity `N`, and the
queue a further `InitClient(id)` creates for `id` is empty with capacity `N`. -/
theorem construct_unvalidated (N : Nat) (hN : N < 2 ^ 32) :
    construct N = { heap := [{ numMsgs := N, msgs := [] }], Mbx_Server := some 0,
                    Mbx_client := [], size := toInt32 N } ∧
    (construct N).serverQueue = some { numMsgs := N, msgs := [] } ∧
    (construct N).registeredIds = [] ∧
    toUInt32 (construct N).size = N ∧
    (N < 2 ^ 31 → (construct N).size = (N : Int)) ∧
    (∀ ops s, runOps (construct N) ops = some s →
      s.size = (construct N).size ∧
      (∀ q, q ∈ s.heap → q.numMsgs = N) ∧
      (∃ q, s.serverQueue = some q ∧ q.numMsgs = N) ∧
      (∀ id q, s.clientQueue id = some q → q.numMsgs = N) ∧
      (∀ id, (s.InitClient id).clientQueue id = some { numMsgs := N, msgs := [] }) ∧
      (∀ id q, (s.InitClient id).clientQueue id = some q → q.numMsgs = N)) := by
  have h := toUInt32_toInt32 N hN
  have hsize : toUInt32 (construct N).size = N := by simpa [construct] using h
  refine ⟨?_, ?_, rfl, hsize, ?_, ?_⟩
  · simp [construct, Mailbox_create, h]
  · simp [construct, Mailbox_create, serverQueue, deref, h]
  · intro h31
    have h1 : N % 2 ^ 32 = N := Nat.mod_eq_of_lt hN
    simp only [construct, toInt32, h1]
    rw [if_pos h31]
  · intro ops s hrun
    obtain ⟨hr, hsz⟩ := runOps_spec ops (construct N) s (Reachable.construct N hN) hrun
    have hw := Reachable.wf s hr
    have hcap : toUInt32 s.size = N := by rw [hsz]; exact hsize
    have hheap : ∀ q, q ∈ s.heap → q.numMsgs = N := by
      intro q hq
      rw [(hw.cap q hq).1, hcap]
    have hinit : ∀ id, (s.InitClient id).clientQueue id
        = some { numMsgs := N, msgs := [] } := by
      intro id
      have hnew : mapFind (s.InitClient id).Mbx_client id = some (some s.heap.length) := by
        simp [BiDirectionalMailbox.InitClient, Mailbox_create, mapFind_mapAssign]
      unfold clientQueue
      rw [hnew]
      simp [deref, BiDirectionalMailbox.InitClient, Mailbox_create, hcap]
    refine ⟨hsz, hheap, ?_, ?_, hinit, ?_⟩
    · obtain ⟨i, hi, hlt⟩ := hw.server
      refine ⟨s.heap[i], by simp [serverQueue, deref, hi, List.getElem?_eq_getElem hlt], ?_⟩
      exact hheap _ (List.getElem_mem hlt)
    · intro id q hq
      obtain ⟨i, _, hqi⟩ := clientQueue_eq_some s id q hq
      exact hheap q (List.mem_iff_getElem?.mpr ⟨i, hqi⟩)
    · intro id q hq
      rw [hinit id] at hq
      injection hq with hq
      rw [← hq]

/-- Witness of C6 (amended): capacity 0. -/
theorem construct_unvalidated_witness :
    construct 0 = { heap := [{ numMsgs := 0, msgs := [] }], Mbx_Server := some 0,
                    Mbx_client := [], size := toInt32 0 } ∧
    (construct 0).serverQueue = some { numMsgs := 0, msgs := [] } ∧
    (construct 0).registeredIds = [] ∧
    toUInt32 (construct 0).size = 0 ∧
    (0 < 2 ^ 31 → (construct 0).size = ((0 : Nat) : Int)) ∧
    (∀ ops s, runOps (construct 0) ops = some s →
      s.size = (construct 0).size ∧
      (∀ q, q ∈ s.heap → q.numMsgs = 0) ∧
      (∃ q, s.serverQueue = some q ∧ q.numMsgs = 0) ∧
      (∀ id q, s.clientQueue id = some q → q.numMsgs = 0) ∧
      (∀ id, (s.InitClient id).clientQueue id = some { numMsgs := 0, msgs := [] }) ∧
      (∀ id q, (s.InitClient id).clientQueue id = some q → q.numMsgs = 0)) :=
  construct_unvalidated 0 (by decide)

/-- C7 as stated fails: with capacity 4, client 7 registered and the reply 43
pending in its queue, a second `InitClient(7)` binds 7 to a new, empty queue;
the `ClientPend(7)` that would have handed back 43 now returns false. -/
theorem second_InitClient_replaces_queue :
    Reachable (((construct 4).InitClient 7).ServerRespondToClient 7 43).state ∧
    (((construct 4).InitClient 7).ServerRespondToClient 7 43).state.clientHandle 7
      = some (some 1) ∧
    (((construct 4).InitClient 7).ServerRespondToClient 7 43).state.clientQueue 7
      = some { numMsgs := 4, msgs := [{ msg := 43 }] } ∧
    ((((construct 4).InitClient 7).ServerRespondToClient 7 43).state.InitClient 7).clientHandle 7
      = some (some 2) ∧
    ((((construct 4).InitClient 7).ServerRespondToClient 7 43).state.InitClient 7).clientQueue 7
      = some { numMsgs := 4, msgs := [] } ∧
    ((((construct 4).InitClient 7).ServerRespondToClient 7 43).state.ClientPend 7 0).value
      = some (true, 43) ∧
    (((((construct 4).InitClient 7).ServerRespondToClient 7 43).state.InitClient 7).ClientPend
      7 0).value = some (false, 0) :=
  ⟨Reachable.step _ _ (Op.ServerRespondToClient 7 43)
      (Reachable.step (construct 4) _ (Op.InitClient 7)
        (Reachable.construct 4 (by decide)) rfl) rfl,
    by decide, by decide, by decide, by decide, by decide, by decide⟩

/-- C7 (amended). Client registrations persist, and a repeated registration
replaces the queue: for every reachable state and every registered id, after
any single call other than `InitClient(id)` itself (whether or not it returns)
`id` is still registered and bound to the same queue handle.  `InitClient(id)`
on the registered id keeps it registered but binds it to a newly created queue
with a handle different from the old one; that queue is empty and has the
capacity of the mailbox, so replies pending in the old queue are no longer
delivered to `id`. -/
theorem client_binding (s : BiDirectionalMailbox) (hr : Reachable s) (id : Int)
    (h : Mailbox_Handle) (hreg : s.clientHandle id = some h) :
    (∀ op, op ≠ Op.InitClient id → (op.run s).state.clientHandle id = some h) ∧
    (s.InitClient id).clientHandle id = some (some s.heap.length) ∧
    some s.heap.length ≠ h ∧
    (s.InitClient id).clientQueue id = some { numMsgs := toUInt32 s.size, msgs := [] } := by
  have hw := Reachable.wf s hr
  unfold clientHandle at hreg
  have hnew : mapFind (s.InitClient id).Mbx_client id = some (some s.heap.length) := by
    simp [BiDirectionalMailbox.InitClient, Mailbox_create, mapFind_mapAssign]
  refine ⟨?_, hnew, ?_, ?_⟩
  · intro op hop
    unfold clientHandle
    cases op with
    | InitClient id1 =>
      have hne : ¬ id1 = id := fun e => hop (by rw [e])
      simp [Op.run, Res.state, BiDirectionalMailbox.InitClient, Mailbox_create,
        mapFind_mapAssign, hne, hreg]
    | ServerPend msg =>
      simp only [Op.run, ignoreValue_state, ServerPend_registry]
      exact hreg
    | ServerRespondToClient id1 m =>
      simp only [Op.run, ignoreValue_state, ServerRespondToClient_registry]
      exact mapFind_mapIndex s.Mbx_client id id1 h hreg
    | ClientPend id1 msg =>
      simp only [Op.run, ignoreValue_state, ClientPend_registry]
      exact mapFind_mapIndex s.Mbx_client id id1 h hreg
    | ClientRequestAndWaitForResponse id1 m r =>
      simp only [Op.run, ignoreValue_state]
      rcases ClientRequestAndWaitForResponse_registry s id1 m r with h1 | h1
      · rw [h1]; exact hreg
      · rw [h1]; exact mapFind_mapIndex s.Mbx_client id id1 h hreg
    | ClientRequestNoWait id1 m =>
      simp only [Op.run, ignoreValue_state, ClientRequestNoWait_registry]
      exact hreg
  · obtain ⟨j, hj, hlt, _⟩ := hw.client id h hreg
    intro e
    rw [hj] at e
    injection e with e
    omega
  · unfold clientQueue
    rw [hnew]
    simp [deref, BiDirectionalMailbox.InitClient, Mailbox_create]

/-- Witness of C7 (amended): capacity 4, client 7 registered, reply 43 pending. -/
theorem client_binding_witness :
    (∀ op, op ≠ Op.InitClient 7 →
      (op.run (((construct 4).InitClient 7).ServerRespondToClient 7 43).state).state.clientHandle
        7 = some (some 1)) ∧
    ((((construct 4).InitClient 7).ServerRespondToClient 7 43).state.InitClient 7).clientHandle 7
      = some (some
          (((construct 4).InitClient 7).ServerRespondToClient 7 43).state.heap.length) ∧
    some (((construct 4).InitClient 7).ServerRespondToClient 7 43).state.heap.length
      ≠ some 1 ∧
    ((((construct 4).InitClient 7).ServerRespondToClient 7 43).state.InitClient 7).clientQueue 7
      = some { numMsgs :=
                 toUInt32 (((construct 4).InitClient 7).ServerRespondToClient 7 43).state.size,
               msgs := [] } :=
  client_binding (((construct 4).InitClient 7).ServerRespondToClient 7 43).state
    (Reachable.step _ _ (Op.ServerRespondToClient 7 43)
      (Reachable.step (construct 4) _ (Op.InitClient 7)
        (Reachable.construct 4 (by decide)) rfl) rfl)
    7 (some 1) (by decide)

/-- C10 at its failing input: on a mailbox of capacity 4 on which `InitClient`
was never called, the lookup `Mbx_client[5]` made by `ClientPend(5)`, by
`ServerRespondToClient(5, 43)` and by the await step of
`ClientRequestAndWaitForResponse(5, 42)` creates a registry entry for 5, bound
to the null handle. -/
theorem lookup_creates_registry_entry :
    (construct 4).registeredIds = [] ∧
    ((construct 4).ClientPend 5 0).state.registeredIds = [5] ∧
    ((construct 4).ClientPend 5 0).state.clientHandle 5 = some none ∧
    ((construct 4).ServerRespondToClient 5 43).state.registeredIds = [5] ∧
    ((construct 4).ClientRequestAndWaitForResponse 5 42 0).state.registeredIds = [5] := by
  decide

end BiDirectionalMailbox

end Mbx
